import Mathlib

/-!
Verification development for the timeline reconciliation engine and the
widget / ask-to-join modules of the matrix-rust-sdk fork.

The timeline engine itself (controller, relation aggregation, item building,
day-divider maintenance, diff publishing) is exercised by
crates/matrix-sdk-ui/src/timeline/tests/edit.rs; the engine is embedded here
from the specification (sections 3, 4, 6, 7), pinned to the observable
behavior asserted by those tests.  The widget message loop
(crates/matrix-sdk/src/widget/client/mod.rs), run_widget_api
(crates/matrix-sdk/src/widget/mod.rs) and the ask-to-join request module
(crates/matrix-sdk/src/room/ask_to_join_request.rs) are embedded directly
from their sources.
-/

namespace MatrixSpec

/-- Modelled from the spec: reason attached to an Unverified verification
state (spec section 3, EncryptionInfo). -/
inductive VerificationLevel where
  | unverifiedIdentity
  | unsignedDevice
  | verificationViolation
  | mismatchedSender
deriving DecidableEq, Repr

/-- Modelled from the spec: verification state of the sender of an encrypted
event (Verified, Unverified(reason), Unknown, Unverifiable). -/
inductive VerificationState where
  | verified
  | unverified (level : VerificationLevel)
  | unknown
  | unverifiable
deriving DecidableEq, Repr

/-- Modelled from the spec: per-event encryption metadata (sender key
material identity, optional device identity, verification state). -/
structure EncryptionInfo where
  sender : String
  senderDevice : Option String
  senderKey : String
  verificationState : VerificationState
deriving DecidableEq, Repr

/-- HTML tags kept by the sanitizer model. -/
def allowedTags : List String :=
  ["strong", "em", "b", "i", "u", "code", "a", "p", "br", "ul", "ol", "li",
   "blockquote", "h1", "h2", "h3", "pre", "span"]

/-- Whether the raw text between angle brackets names an allowed tag
(a leading slash marks a closing tag and is ignored). -/
def tagAllowed (tag : List Char) : Bool :=
  allowedTags.contains
    (String.mk ((tag.dropWhile (fun c => c == '/')).takeWhile (fun c => c.isAlpha)))

/-- Scanner state of the sanitizer: plain text, or inside an angle-bracket
tag with the characters collected so far (reversed). -/
inductive SanMode where
  | text
  | tag (acc : List Char)

/-- Modelled from the spec: the HTML sanitization the item builder applies to
formatted bodies (not under src/; behavior pinned by tests/edit.rs, where the
disallowed custom tag in an edited formatted body is stripped while allowed
tags such as strong survive).  Tags outside the allowlist are removed, their
surrounding text kept. -/
def sanitizeGo : SanMode → List Char → List Char
  | .text, [] => []
  | .text, c :: rest =>
      if c = '<' then sanitizeGo (.tag []) rest
      else c :: sanitizeGo .text rest
  | .tag _, [] => []
  | .tag acc, c :: rest =>
      if c = '>' then
        if tagAllowed acc.reverse then
          ('<' :: acc.reverse) ++ ('>' :: sanitizeGo .text rest)
        else sanitizeGo .text rest
      else sanitizeGo (.tag (c :: acc)) rest

/-- Sanitize a formatted (HTML) body. -/
def sanitize (s : String) : String :=
  String.mk (sanitizeGo .text s.data)

/-- Rendered content of an event-backed timeline item. -/
inductive ItemContent where
  | message (body : String) (formatted : Option String)
  | redacted
  | unableToDecrypt
deriving DecidableEq, Repr

/-- Modelled from the spec: the data carried by an event-backed timeline item
(spec section 3, TimelineItem, Event variant). -/
structure EventItemData where
  eventId : Nat
  sender : String
  timestamp : Nat
  content : ItemContent
  encryptionInfo : Option EncryptionInfo
deriving DecidableEq, Repr

/-- Modelled from the spec: a timeline item is event-backed or virtual
(DayDivider carrying its calendar day, or ReadMarker). -/
inductive TimelineItem where
  | event (d : EventItemData)
  | dayDivider (day : Nat)
  | readMarker
deriving DecidableEq, Repr

/-- New content carried by an edit (m.new_content): body and optional
formatted body. -/
structure NewContent where
  body : String
  formatted : Option String
deriving DecidableEq, Repr

/-- Modelled from the spec: relation kinds (edit, redaction, reaction), plus
the replacement relation carried in the clear by an encrypted event. -/
inductive RelKind where
  | edit (nc : NewContent)
  | redaction
  | reaction (key : String)
  | replacement
deriving DecidableEq, Repr

/-- Relation descriptor: kind plus target event identity. -/
structure Rel where
  kind : RelKind
  target : Nat
deriving DecidableEq, Repr

/-- Content payload of a raw event: a (possibly formatted) message, an
already-redacted message, or an encrypted envelope whose decrypted content is
present or absent. -/
inductive Payload where
  | message (body : String) (formatted : Option String)
  | redactedMessage
  | encrypted (ciphertext : String) (decrypted : Option (String × Option String))
deriving DecidableEq, Repr

/-- Modelled from the spec: a protocol-level raw event (spec section 3,
RawEvent): identity, sender, origin timestamp, content payload, optional
relation descriptor, optional server-bundled inline edit, optional encryption
metadata. -/
structure RawEvent where
  eventId : Nat
  sender : String
  timestamp : Nat
  payload : Payload
  relation : Option Rel
  bundledEdit : Option NewContent
  encryptionInfo : Option EncryptionInfo
deriving DecidableEq, Repr

/-- Stored winning edit for a target: new content, the edit event timestamp
used for the recency comparison, and the encryption info of the edit event. -/
structure EditRecord where
  body : String
  formatted : Option String
  ts : Nat
  encInfo : Option EncryptionInfo
deriving DecidableEq, Repr

/-- Modelled from the spec: per-target relation aggregation (spec section 3,
RelationAggregation): latest applicable edit, permanent redaction tombstone,
accumulated reactions keyed by reaction key and sender. -/
structure Aggregation where
  edit : Option EditRecord
  redacted : Bool
  reactions : List (String × String)
deriving DecidableEq, Repr

/-- The empty aggregation, created lazily on first reference to a target. -/
def emptyAgg : Aggregation := ⟨none, false, []⟩

/-- Modelled from the spec: timeline state — the ordered event-backed items,
the relation aggregation map (association list over target event ids), and
the ingestion arrival counter. -/
structure TimelineState where
  events : List EventItemData
  aggs : List (Nat × Aggregation)
  arrival : Nat
deriving DecidableEq, Repr

/-- The initial, empty timeline state. -/
def initialState : TimelineState := ⟨[], [], 0⟩

/-- Diff operations published to subscribers (spec section 4.5, DiffOp). -/
inductive DiffOp where
  | pushBack (item : TimelineItem)
  | pushFront (item : TimelineItem)
  | insert (at_ : Nat) (item : TimelineItem)
  | set (at_ : Nat) (item : TimelineItem)
  | remove (at_ : Nat)
  | clear
deriving DecidableEq, Repr

/-- Milliseconds per calendar day. -/
def msPerDay : Nat := 86400000

/-- Calendar day of a timestamp (spec section 4.4: day boundaries computed
from item timestamps). -/
def dayOf (ts : Nat) : Nat := ts / msPerDay

/-- Modelled from the spec: the projection of the ordered event sequence into
timeline items, inserting a DayDivider exactly where the calendar day changes
(spec section 3 Projection invariant and section 4.4).  The first argument is
the day of the preceding event item, none at the start. -/
def withDividersFrom : Option Nat → List EventItemData → List TimelineItem
  | _, [] => []
  | prev, e :: rest =>
      if prev = some (dayOf e.timestamp) then
        .event e :: withDividersFrom (some (dayOf e.timestamp)) rest
      else
        .dayDivider (dayOf e.timestamp) :: .event e ::
          withDividersFrom (some (dayOf e.timestamp)) rest

/-- Full externally visible projection of a timeline state's event sequence. -/
def projection (l : List EventItemData) : List TimelineItem :=
  withDividersFrom none l

/-- Position, in the full projection, of the event item at position i of the
event sequence (counting the day dividers that precede it). -/
def projIndexAux : Option Nat → List EventItemData → Nat → Nat
  | _, [], _ => 0
  | prev, e :: rest, i =>
      let here : Nat := if prev = some (dayOf e.timestamp) then 0 else 1
      match i with
      | 0 => here
      | Nat.succ j => here + 1 + projIndexAux (some (dayOf e.timestamp)) rest j

/-- Position in the full projection of event item i. -/
def projIndex (l : List EventItemData) (i : Nat) : Nat :=
  projIndexAux none l i

/-- Association-list read of the aggregation map; a target without an entry
has the empty aggregation (created lazily, spec section 3). -/
def getAgg : List (Nat × Aggregation) → Nat → Aggregation
  | [], _ => emptyAgg
  | (k, a) :: rest, t => if k = t then a else getAgg rest t

/-- Association-list write of the aggregation map. -/
def setAgg : List (Nat × Aggregation) → Nat → Aggregation → List (Nat × Aggregation)
  | [], t, a => [(t, a)]
  | (k, b) :: rest, t, a =>
      if k = t then (t, a) :: rest else (k, b) :: setAgg rest t a

/-- Position and data of the event item with the given event id, if present. -/
def lookupEvent : List EventItemData → Nat → Option (Nat × EventItemData)
  | [], _ => none
  | e :: rest, t =>
      if e.eventId = t then some (0, e)
      else
        match lookupEvent rest t with
        | some (i, x) => some (i + 1, x)
        | none => none

/-- Modelled from the spec: edit recency rule (spec section 4.2) — a
candidate edit wins over the stored one when it is strictly newer, or when
the timestamps are equal and the candidate arrived later in ingestion order
(the stored record always arrived earlier). -/
def winsOver (stored : Option EditRecord) (newTs : Nat) : Bool :=
  match stored with
  | none => true
  | some r => r.ts ≤ newTs

/-- Store a candidate edit into an aggregation if it wins by recency. -/
def foldEditInto (agg : Aggregation) (nc : NewContent) (ts : Nat)
    (enc : Option EncryptionInfo) : Aggregation :=
  if winsOver agg.edit ts then
    { agg with edit := some ⟨nc.body, nc.formatted, ts, enc⟩ }
  else agg

/-- Modelled from the spec: the item builder content policy (spec
section 4.3) — a tombstoned target renders cleared content independent of any
stored edit; otherwise the winning edit wholesale replaces body and formatted
body; formatted bodies are sanitized. -/
def buildContent (agg : Aggregation) (body : String) (fmt : Option String) :
    ItemContent :=
  if agg.redacted then .redacted
  else
    match agg.edit with
    | some r => .message r.body (r.formatted.map sanitize)
    | none => .message body (fmt.map sanitize)

/-- Displayed encryption info: the winning edit's info when it carries one,
otherwise the original event's (spec section 4.3). -/
def buildEncInfo (agg : Aggregation) (evInfo : Option EncryptionInfo) :
    Option EncryptionInfo :=
  match agg.edit with
  | some r =>
      match r.encInfo with
      | some x => some x
      | none => evInfo
  | none => evInfo

/-- Calendar day of the last event item, if any. -/
def lastDay : List EventItemData → Option Nat
  | [] => none
  | [e] => some (dayOf e.timestamp)
  | _ :: e :: rest => lastDay (e :: rest)

/-- Modelled from the spec: append a built item at the end of the event
sequence (push_live_event delivers forward-chronological events, spec
section 6), emitting a PushBack for the item followed by the day-divider
insertion when the item starts a new calendar day (spec section 4.4; diff
order pinned by tests/edit.rs: PushBack of the event, then PushFront of the
divider for the first event). -/
def appendItem (s : TimelineState) (e : EventItemData) :
    TimelineState × List DiffOp :=
  let divOps : List DiffOp :=
    match lastDay s.events with
    | none => [.pushFront (.dayDivider (dayOf e.timestamp))]
    | some d =>
        if d = dayOf e.timestamp then []
        else [.insert (projection s.events).length (.dayDivider (dayOf e.timestamp))]
  ({ s with events := s.events ++ [e] }, .pushBack (.event e) :: divOps)

/-- Apply a winning replacement (cleartext edit, or decrypted encrypted
replacement) to the timeline: store it in the aggregation; when the target is
tombstoned the edit is retained but never rendered (spec section 4.2); when
the target item is present and the edit wins by recency, the item content is
wholesale replaced and a Set is emitted at the item's projection position. -/
def handleEditRel (s : TimelineState) (target : Nat) (nc : NewContent)
    (ts : Nat) (enc : Option EncryptionInfo) : TimelineState × List DiffOp :=
  let agg := getAgg s.aggs target
  let s' : TimelineState :=
    { s with
      aggs := setAgg s.aggs target (foldEditInto agg nc ts enc),
      arrival := s.arrival + 1 }
  if agg.redacted then (s', [])
  else if winsOver agg.edit ts then
    match lookupEvent s.events target with
    | none => (s', [])
    | some (i, e) =>
        let e' : EventItemData :=
          { e with
            content := .message nc.body (nc.formatted.map sanitize),
            encryptionInfo :=
              match enc with
              | some x => some x
              | none => e.encryptionInfo }
        ({ s' with events := s.events.set i e' },
         [.set (projIndex s.events i) (.event e')])
  else (s', [])

/-- Modelled from the spec: ingestion of one live event through the whole
pipeline (spec sections 4.1 to 4.5) — the timeline controller, relation
aggregator, item builder, divider maintainer and diff publisher are not under
src/ (only tests/edit.rs is); this embedding follows the spec, with diff
shapes pinned by the tests.  Returns the new state and the published diffs. -/
def handleLiveEvent (s : TimelineState) (ev : RawEvent) :
    TimelineState × List DiffOp :=
  match ev.relation with
  | some rel =>
      match rel.kind with
      | .edit nc => handleEditRel s rel.target nc ev.timestamp ev.encryptionInfo
      | .redaction =>
          let agg := getAgg s.aggs rel.target
          let s' : TimelineState :=
            { s with
              aggs := setAgg s.aggs rel.target { agg with redacted := true },
              arrival := s.arrival + 1 }
          match lookupEvent s.events rel.target with
          | none => (s', [])
          | some (i, e) =>
              let e' : EventItemData := { e with content := .redacted }
              ({ s' with events := s.events.set i e' },
               [.set (projIndex s.events i) (.event e')])
      | .reaction key =>
          let agg := getAgg s.aggs rel.target
          ({ s with
             aggs := setAgg s.aggs rel.target
               { agg with reactions := (key, ev.sender) :: agg.reactions },
             arrival := s.arrival + 1 }, [])
      | .replacement =>
          match ev.payload with
          | .encrypted _ none =>
              let agg := getAgg s.aggs rel.target
              if agg.redacted then ({ s with arrival := s.arrival + 1 }, [])
              else
                match lookupEvent s.events rel.target with
                | none => ({ s with arrival := s.arrival + 1 }, [])
                | some (i, e) =>
                    let e' : EventItemData := { e with content := .unableToDecrypt }
                    ({ s with
                       events := s.events.set i e',
                       arrival := s.arrival + 1 },
                     [.set (projIndex s.events i) (.event e')])
          | .encrypted _ (some (b, f)) =>
              handleEditRel s rel.target ⟨b, f⟩ ev.timestamp ev.encryptionInfo
          | _ => ({ s with arrival := s.arrival + 1 }, [])
  | none =>
      match lookupEvent s.events ev.eventId with
      | some _ => (s, [])
      | none =>
          match ev.payload with
          | .message body fmt =>
              let agg := getAgg s.aggs ev.eventId
              let agg' :=
                match ev.bundledEdit with
                | some nc => foldEditInto agg nc ev.timestamp ev.encryptionInfo
                | none => agg
              let item : EventItemData :=
                { eventId := ev.eventId, sender := ev.sender,
                  timestamp := ev.timestamp,
                  content := buildContent agg' body fmt,
                  encryptionInfo := buildEncInfo agg' ev.encryptionInfo }
              appendItem
                { s with
                  aggs := setAgg s.aggs ev.eventId agg',
                  arrival := s.arrival + 1 } item
          | .redactedMessage =>
              let agg := getAgg s.aggs ev.eventId
              let item : EventItemData :=
                { eventId := ev.eventId, sender := ev.sender,
                  timestamp := ev.timestamp,
                  content := .redacted,
                  encryptionInfo := ev.encryptionInfo }
              appendItem
                { s with
                  aggs := setAgg s.aggs ev.eventId { agg with redacted := true },
                  arrival := s.arrival + 1 } item
          | .encrypted _ dec =>
              let agg := getAgg s.aggs ev.eventId
              let item : EventItemData :=
                { eventId := ev.eventId, sender := ev.sender,
                  timestamp := ev.timestamp,
                  content :=
                    match dec with
                    | none => .unableToDecrypt
                    | some (b, f) => buildContent agg b f,
                  encryptionInfo := buildEncInfo agg ev.encryptionInfo }
              appendItem { s with arrival := s.arrival + 1 } item

/-- Ingest a list of live events from a starting state. -/
def ingestAll (s : TimelineState) : List RawEvent → TimelineState
  | [] => s
  | ev :: rest => ingestAll (handleLiveEvent s ev).1 rest

/-- Whether a timeline item is event-backed. -/
def itemIsEvent : TimelineItem → Bool
  | .event _ => true
  | _ => false

/-- Number of event-backed items in an item list. -/
def countEvents : List TimelineItem → Nat
  | [] => 0
  | x :: rest => (if itemIsEvent x then 1 else 0) + countEvents rest

/-- Apply one diff operation to a mirrored item list, as an external
subscriber maintaining its own copy would (spec section 4.5). -/
def applyOp : List TimelineItem → DiffOp → List TimelineItem
  | l, .pushBack x => l ++ [x]
  | l, .pushFront x => x :: l
  | l, .insert i x => l.take i ++ x :: l.drop i
  | l, .set i x => l.set i x
  | l, .remove i => l.eraseIdx i
  | _, .clear => []

/-- Modelled from the spec: translation of one full-projection diff operation
into the event-only stream of subscribe_events (spec section 6): operations
on virtual items are dropped, and indices are re-expressed as positions in
the virtual-item-free sequence (the number of event-backed items before the
full-projection position). -/
def filterOp (proj : List TimelineItem) : DiffOp → Option DiffOp
  | .pushBack (.event e) => some (.pushBack (.event e))
  | .pushBack _ => none
  | .pushFront (.event e) => some (.pushFront (.event e))
  | .pushFront _ => none
  | .insert i (.event e) => some (.insert (countEvents (proj.take i)) (.event e))
  | .insert _ _ => none
  | .set i (.event e) => some (.set (countEvents (proj.take i)) (.event e))
  | .set _ _ => none
  | .remove i =>
      match proj.get? i with
      | some (.event _) => some (.remove (countEvents (proj.take i)))
      | _ => none
  | .clear => some .clear

/-- Modelled from the spec: the event-only diff stream published by
subscribe_events for one batch of diffs, threading the evolving
full-projection mirror through the batch. -/
def filterDiffs (proj : List TimelineItem) : List DiffOp → List DiffOp
  | [] => []
  | op :: rest =>
      match filterOp proj op with
      | some op' => op' :: filterDiffs (applyOp proj op) rest
      | none => filterDiffs (applyOp proj op) rest

/-- Whether a diff operation carries no virtual item. -/
def opEventOnly : DiffOp → Bool
  | .pushBack x => itemIsEvent x
  | .pushFront x => itemIsEvent x
  | .insert _ x => itemIsEvent x
  | .set _ x => itemIsEvent x
  | .remove _ => true
  | .clear => true

/-- Whether a diff operation is a PushBack. -/
def isPushBack : DiffOp → Bool
  | .pushBack _ => true
  | _ => false

/-- Whether a diff operation is a Set. -/
def isSet : DiffOp → Bool
  | .set _ _ => true
  | _ => false

/-- Number of operations in a diff batch satisfying a predicate. -/
def countOps (p : DiffOp → Bool) (l : List DiffOp) : Nat :=
  (l.filter p).length

/-- Adjacency discipline between two neighbouring projection items: adjacent
event items share a calendar day; a divider differs from the day of the event
before it and equals the day of the event after it; no two virtual items are
adjacent (spec section 3, Projection invariant). -/
def adjPairOk : TimelineItem → TimelineItem → Bool
  | .event a, .event b => dayOf a.timestamp == dayOf b.timestamp
  | .event a, .dayDivider d => !(dayOf a.timestamp == d)
  | .dayDivider d, .event b => dayOf b.timestamp == d
  | _, _ => false

/-- All adjacent pairs of an item list satisfy the adjacency discipline. -/
def adjOk : List TimelineItem → Bool
  | x :: y :: rest => adjPairOk x y && adjOk (y :: rest)
  | _ => true

/-- A nonempty projection opens with a day divider immediately followed by an
event item. -/
def startsWithDivider : List TimelineItem → Bool
  | [] => true
  | .dayDivider _ :: .event _ :: _ => true
  | _ => false

/-! Helper lemmas about the embedded operations. -/

theorem lookupEvent_some {l : List EventItemData} {t i : Nat} {e : EventItemData}
    (h : lookupEvent l t = some (i, e)) : i < l.length ∧ e.eventId = t := by
  induction l generalizing i e with
  | nil => simp [lookupEvent] at h
  | cons x rest ih =>
      simp only [lookupEvent] at h
      by_cases hx : x.eventId = t
      · rw [if_pos hx] at h
        simp only [Option.some.injEq, Prod.mk.injEq] at h
        obtain ⟨hi, he⟩ := h
        subst he
        subst hi
        exact ⟨Nat.succ_pos _, hx⟩
      · rw [if_neg hx] at h
        cases hr : lookupEvent rest t with
        | none => rw [hr] at h; simp at h
        | some p =>
            obtain ⟨j, y⟩ := p
            rw [hr] at h
            simp only [Option.some.injEq, Prod.mk.injEq] at h
            obtain ⟨hi, he⟩ := h
            subst he
            obtain ⟨hj, hy⟩ := ih hr
            subst hi
            exact ⟨Nat.succ_lt_succ hj, hy⟩

theorem lookupEvent_set {l : List EventItemData} {t i : Nat} {e e' : EventItemData}
    (h : lookupEvent l t = some (i, e)) (he' : e'.eventId = t) :
    lookupEvent (l.set i e') t = some (i, e') := by
  induction l generalizing i e with
  | nil => simp [lookupEvent] at h
  | cons x rest ih =>
      simp only [lookupEvent] at h
      by_cases hx : x.eventId = t
      · rw [if_pos hx] at h
        simp only [Option.some.injEq, Prod.mk.injEq] at h
        obtain ⟨hi, -⟩ := h
        subst hi
        simp [List.set, lookupEvent, he']
      · rw [if_neg hx] at h
        cases hr : lookupEvent rest t with
        | none => rw [hr] at h; simp at h
        | some p =>
            obtain ⟨j, y⟩ := p
            rw [hr] at h
            simp only [Option.some.injEq, Prod.mk.injEq] at h
            obtain ⟨hi, he⟩ := h
            subst he
            subst hi
            have hset : (x :: rest).set (j + 1) e' = x :: rest.set j e' := rfl
            rw [hset]
            simp only [lookupEvent, if_neg hx]
            rw [ih hr]

theorem lookupEvent_append {l : List EventItemData} {t : Nat} {e : EventItemData}
    (h : lookupEvent l t = none) (he : e.eventId = t) :
    lookupEvent (l ++ [e]) t = some (l.length, e) := by
  induction l with
  | nil => simp [lookupEvent, he]
  | cons x rest ih =>
      simp only [lookupEvent] at h
      by_cases hx : x.eventId = t
      · rw [if_pos hx] at h
        simp at h
      · rw [if_neg hx] at h
        cases hr : lookupEvent rest t with
        | none =>
            have hstep : (x :: rest) ++ [e] = x :: (rest ++ [e]) := rfl
            rw [hstep]
            simp only [lookupEvent, if_neg hx]
            rw [ih hr]
            simp [List.length]
        | some p => rw [hr] at h; simp at h

theorem getAgg_setAgg (m : List (Nat × Aggregation)) (t : Nat) (a : Aggregation) :
    getAgg (setAgg m t a) t = a := by
  induction m with
  | nil => simp [setAgg, getAgg]
  | cons p rest ih =>
      obtain ⟨k, b⟩ := p
      by_cases hk : k = t
      · simp [setAgg, getAgg, hk]
      · simp [setAgg, getAgg, hk, ih]

theorem adjOk_event_from (l : List EventItemData) :
    ∀ e : EventItemData,
      adjOk (.event e :: withDividersFrom (some (dayOf e.timestamp)) l) = true := by
  induction l with
  | nil => intro e; simp [withDividersFrom, adjOk]
  | cons x rest ih =>
      intro e
      by_cases hd : dayOf e.timestamp = dayOf x.timestamp
      · rw [withDividersFrom, if_pos (by rw [hd])]
        rw [adjOk]
        have hx := ih x
        simp [adjPairOk, hd, hx]
      · rw [withDividersFrom,
          if_neg (by simp only [Option.some.injEq]; exact hd)]
        rw [adjOk, adjOk]
        have hx := ih x
        simp [adjPairOk, hd, hx]

theorem projection_adjOk (l : List EventItemData) : adjOk (projection l) = true := by
  cases l with
  | nil => simp [projection, withDividersFrom, adjOk]
  | cons e rest =>
      rw [projection, withDividersFrom, if_neg (by simp)]
      rw [adjOk]
      have h := adjOk_event_from rest e
      simp [adjPairOk, h]

theorem projection_startsWithDivider (l : List EventItemData) :
    startsWithDivider (projection l) = true := by
  cases l with
  | nil => simp [projection, withDividersFrom, startsWithDivider]
  | cons e rest =>
      rw [projection, withDividersFrom, if_neg (by simp)]
      rfl

theorem countEvents_take_projIndexAux :
    ∀ (l : List EventItemData) (prev : Option Nat) (i : Nat), i < l.length →
      countEvents ((withDividersFrom prev l).take (projIndexAux prev l i)) = i := by
  intro l
  induction l with
  | nil => intro prev i h; simp at h
  | cons e rest ih =>
      intro prev i h
      by_cases hp : prev = some (dayOf e.timestamp)
      · have e2 : withDividersFrom prev (e :: rest) =
            .event e :: withDividersFrom (some (dayOf e.timestamp)) rest := by
          simp [withDividersFrom, hp]
        cases i with
        | zero =>
            have e1 : projIndexAux prev (e :: rest) 0 = 0 := by
              simp [projIndexAux, hp]
            rw [e1, e2]
            simp [countEvents]
        | succ j =>
            have hj : j < rest.length := by
              have := Nat.lt_of_succ_lt_succ (by simpa using h)
              exact this
            have e1 : projIndexAux prev (e :: rest) (j + 1) =
                projIndexAux (some (dayOf e.timestamp)) rest j + 1 := by
              simp [projIndexAux, hp]
              omega
            rw [e1, e2, List.take_succ_cons]
            have hrec := ih (some (dayOf e.timestamp)) j hj
            rw [countEvents, hrec]
            simp [itemIsEvent]
            omega
      · have e2 : withDividersFrom prev (e :: rest) =
            .dayDivider (dayOf e.timestamp) :: .event e ::
              withDividersFrom (some (dayOf e.timestamp)) rest := by
          simp [withDividersFrom, hp]
        cases i with
        | zero =>
            have e1 : projIndexAux prev (e :: rest) 0 = 1 := by
              simp [projIndexAux, hp]
            rw [e1, e2, List.take_succ_cons]
            simp [countEvents, itemIsEvent]
        | succ j =>
            have hj : j < rest.length := by
              have := Nat.lt_of_succ_lt_succ (by simpa using h)
              exact this
            have e1 : projIndexAux prev (e :: rest) (j + 1) =
                projIndexAux (some (dayOf e.timestamp)) rest j + 2 := by
              simp [projIndexAux, hp]
              omega
            rw [e1, e2, List.take_succ_cons, List.take_succ_cons]
            have hrec := ih (some (dayOf e.timestamp)) j hj
            rw [countEvents, countEvents, hrec]
            simp [itemIsEvent]
            omega

theorem filterOp_eventOnly {proj : List TimelineItem} {op op' : DiffOp}
    (h : filterOp proj op = some op') : opEventOnly op' = true := by
  cases op with
  | pushBack x =>
      cases x with
      | event e => simp [filterOp] at h; subst h; rfl
      | dayDivider d => simp [filterOp] at h
      | readMarker => simp [filterOp] at h
  | pushFront x =>
      cases x with
      | event e => simp [filterOp] at h; subst h; rfl
      | dayDivider d => simp [filterOp] at h
      | readMarker => simp [filterOp] at h
  | insert i x =>
      cases x with
      | event e => simp [filterOp] at h; subst h; rfl
      | dayDivider d => simp [filterOp] at h
      | readMarker => simp [filterOp] at h
  | set i x =>
      cases x with
      | event e => simp [filterOp] at h; subst h; rfl
      | dayDivider d => simp [filterOp] at h
      | readMarker => simp [filterOp] at h
  | remove i =>
      simp only [filterOp] at h
      cases hg : proj.get? i with
      | none => rw [hg] at h; simp at h
      | some y =>
          rw [hg] at h
          cases y with
          | event e => simp at h; subst h; rfl
          | dayDivider d => simp at h
          | readMarker => simp at h
  | clear =>
      simp [filterOp] at h
      subst h
      rfl

theorem filterDiffs_eventOnly :
    ∀ (ops : List DiffOp) (proj : List TimelineItem) (op : DiffOp),
      op ∈ filterDiffs proj ops → opEventOnly op = true := by
  intro ops
  induction ops with
  | nil => intro proj op h; simp [filterDiffs] at h
  | cons x rest ih =>
      intro proj op h
      rw [filterDiffs] at h
      cases hf : filterOp proj x with
      | none =>
          rw [hf] at h
          exact ih _ _ h
      | some y =>
          rw [hf] at h
          rcases List.mem_cons.mp h with h1 | h2
          · subst h1; exact filterOp_eventOnly hf
          · exact ih _ _ h2

/-! Concrete replay of the scenarios of tests/edit.rs. -/

/-- An already-redacted message event, as in test_live_redacted. -/
def exRedactedEvent : RawEvent := ⟨1, "alice", 10, .redactedMessage, none, none, none⟩

/-- An edit addressed to the redacted event's id, as in test_live_redacted. -/
def exEditOfRedacted : RawEvent :=
  ⟨2, "alice", 20, .message " * test" none, some ⟨.edit ⟨"test", none⟩, 1⟩, none, none⟩

/-- State after ingesting the redacted event. -/
def exStateRedacted : TimelineState := (handleLiveEvent initialState exRedactedEvent).1

/-- The original formatted message of test_live_sanitized. -/
def exOriginalHtml : RawEvent :=
  ⟨1, "alice", 10,
   .message "**original** message" (some "<strong>original</strong> message"),
   none, none, none⟩

/-- The edit of test_live_sanitized: its new formatted body carries the
custom tag that the sanitizer strips. -/
def exEditHtml : RawEvent :=
  ⟨2, "alice", 20,
   .message "* !!edited!! **better** message"
     (some "* <edited/> <strong>better</strong> message"),
   some ⟨.edit ⟨"!!edited!! **better** message",
     some "<edited/> <strong>better</strong> message"⟩, 1⟩,
   none, none⟩

/-- State after ingesting the original formatted message. -/
def exStateHtml : TimelineState := (handleLiveEvent initialState exOriginalHtml).1

/-- C1: for an event E whose id is tombstoned (redacted), ingesting an edit
addressed to E leaves the event sequence untouched — so the rendered item for
E keeps its cleared content — keeps the projection item count unchanged, and
publishes no diff at all, in particular no Set and no PushBack beyond the
divider insertion already performed for E itself. -/
theorem c1_redaction_supersedes_edits
    (s : TimelineState) (ev : RawEvent) (nc : NewContent) (t : Nat)
    (hrel : ev.relation = some ⟨.edit nc, t⟩)
    (hred : (getAgg s.aggs t).redacted = true) :
    (handleLiveEvent s ev).1.events = s.events ∧
    (handleLiveEvent s ev).2 = [] ∧
    (projection (handleLiveEvent s ev).1.events).length =
      (projection s.events).length := by
  have h1 : handleLiveEvent s ev =
      handleEditRel s t nc ev.timestamp ev.encryptionInfo := by
    rw [handleLiveEvent, hrel]
  rw [h1, handleEditRel]
  simp [hred]

/-- Witness for C1, replaying test_live_redacted: the redacted event plus its
day divider give 2 items, and the edit changes nothing and emits nothing. -/
theorem c1_witness :
    (getAgg exStateRedacted.aggs 1).redacted = true ∧
    (projection exStateRedacted.events).length = 2 ∧
    ((handleLiveEvent exStateRedacted exEditOfRedacted).1.events =
        exStateRedacted.events ∧
      (handleLiveEvent exStateRedacted exEditOfRedacted).2 = [] ∧
      (projection (handleLiveEvent exStateRedacted exEditOfRedacted).1.events).length =
        (projection exStateRedacted.events).length) :=
  ⟨by decide, by decide,
   c1_redaction_supersedes_edits exStateRedacted exEditOfRedacted
     ⟨"test", none⟩ 1 rfl (by decide)⟩

/-- C2 counterexample: replaying test_live_sanitized, the rendered formatted
body after the edit is the sanitized string (the custom tag stripped, leaving
a leading space), which is not the edit's new formatted value — so the
rendered formatted body does not equal exactly the edit's new value. -/
theorem c2_counterexample :
    lookupEvent (handleLiveEvent exStateHtml exEditHtml).1.events 1 =
      some (0, ⟨1, "alice", 10,
        .message "!!edited!! **better** message"
          (some " <strong>better</strong> message"), none⟩) ∧
    (" <strong>better</strong> message" : String) ≠
      "<edited/> <strong>better</strong> message" :=
  ⟨by decide, by decide⟩

/-- The item produced by folding a winning edit over an existing item:
content wholesale replaced (formatted body sanitized), displayed encryption
info taken from the edit when it carries one. -/
def editedItem (e : EventItemData) (nc : NewContent)
    (enc : Option EncryptionInfo) : EventItemData :=
  { e with
    content := .message nc.body (nc.formatted.map sanitize),
    encryptionInfo :=
      match enc with
      | some x => some x
      | none => e.encryptionInfo }

theorem handleLiveEvent_edit_wins
    (s : TimelineState) (ev : RawEvent) (nc : NewContent) (t i : Nat)
    (e : EventItemData)
    (hrel : ev.relation = some ⟨.edit nc, t⟩)
    (hred : (getAgg s.aggs t).redacted = false)
    (hwin : winsOver (getAgg s.aggs t).edit ev.timestamp = true)
    (hfind : lookupEvent s.events t = some (i, e)) :
    (handleLiveEvent s ev).1.events =
      s.events.set i (editedItem e nc ev.encryptionInfo) ∧
    lookupEvent (handleLiveEvent s ev).1.events t =
      some (i, editedItem e nc ev.encryptionInfo) ∧
    (handleLiveEvent s ev).2 =
      [.set (projIndex s.events i) (.event (editedItem e nc ev.encryptionInfo))] := by
  have h1 : handleLiveEvent s ev =
      handleEditRel s t nc ev.timestamp ev.encryptionInfo := by
    rw [handleLiveEvent, hrel]
  have hid : e.eventId = t := (lookupEvent_some hfind).2
  rw [h1, handleEditRel]
  simp only [hred, Bool.false_eq_true, if_false, hwin, if_true, hfind, editedItem]
  refine ⟨trivial, ?_, trivial⟩
  exact lookupEvent_set hfind hid

/-- C2 (amended): ingesting a winning edit for a present, non-redacted target
replaces the target item's content wholesale — the body becomes exactly the
edit's new body and the formatted body becomes the edit's new formatted body
passed through HTML sanitization, with no dependence on (no merge with) the
original content — and the only diff emitted is an in-place Set at the item's
existing projection index. -/
theorem c2_edit_replaces_wholesale
    (s : TimelineState) (ev : RawEvent) (nc : NewContent) (t i : Nat)
    (e : EventItemData)
    (hrel : ev.relation = some ⟨.edit nc, t⟩)
    (hred : (getAgg s.aggs t).redacted = false)
    (hwin : winsOver (getAgg s.aggs t).edit ev.timestamp = true)
    (hfind : lookupEvent s.events t = some (i, e)) :
    (handleLiveEvent s ev).1.events =
      s.events.set i
        { e with
          content := .message nc.body (nc.formatted.map sanitize),
          encryptionInfo :=
            match ev.encryptionInfo with
            | some x => some x
            | none => e.encryptionInfo } ∧
    lookupEvent (handleLiveEvent s ev).1.events t =
      some (i,
        { e with
          content := .message nc.body (nc.formatted.map sanitize),
          encryptionInfo :=
            match ev.encryptionInfo with
            | some x => some x
            | none => e.encryptionInfo }) ∧
    (handleLiveEvent s ev).2 =
      [.set (projIndex s.events i)
        (.event
          { e with
            content := .message nc.body (nc.formatted.map sanitize),
            encryptionInfo :=
              match ev.encryptionInfo with
              | some x => some x
              | none => e.encryptionInfo })] := by
  have h := handleLiveEvent_edit_wins s ev nc t i e hrel hred hwin hfind
  simpa [editedItem] using h

/-- Witness for C2 (amended), replaying test_live_sanitized. -/
theorem c2_witness :
    (getAgg exStateHtml.aggs 1).redacted = false ∧
    winsOver (getAgg exStateHtml.aggs 1).edit 20 = true ∧
    lookupEvent exStateHtml.events 1 =
      some (0, ⟨1, "alice", 10,
        .message "**original** message"
          (some "<strong>original</strong> message"), none⟩) ∧
    ((handleLiveEvent exStateHtml exEditHtml).2 =
      [.set 1 (.event ⟨1, "alice", 10,
        .message "!!edited!! **better** message"
          (some " <strong>better</strong> message"), none⟩)]) := by
  have h := c2_edit_replaces_wholesale exStateHtml exEditHtml
    ⟨"!!edited!! **better** message",
      some "<edited/> <strong>better</strong> message"⟩ 1 0
    ⟨1, "alice", 10,
      .message "**original** message"
        (some "<strong>original</strong> message"), none⟩
    rfl (by decide) (by decide) (by decide)
  refine ⟨by decide, by decide, by decide, ?_⟩
  have h3 := h.2.2
  rw [h3]
  decide

/-- The plain message event of test_utd_edit_replaces_original. -/
def exPlainEvent : RawEvent := ⟨1, "alice", 10, .message "original" none, none, none, none⟩

/-- The undecryptable encrypted replacement of
test_utd_edit_replaces_original. -/
def exUtdReplacement : RawEvent :=
  ⟨2, "alice", 20, .encrypted "AwgAEpABqOCAaP6N" none,
   some ⟨.replacement, 1⟩, none, none⟩

/-- State after ingesting the plain message. -/
def exStatePlain : TimelineState := (handleLiveEvent initialState exPlainEvent).1

/-- C4: an undecryptable encrypted event carrying a replacement relation to a
present, non-redacted target replaces that item's content with the
unable-to-decrypt placeholder in place: the event sequence keeps its length,
the only published diff is a Set at the item's existing projection index
(no Remove and no Insert, and nothing after it, so the subscriber stream is
pending), and in the event-filtered stream of subscribe_events the Set
carries the item's event-sequence index. -/
theorem c4_utd_edit_replaces_original
    (s : TimelineState) (ev : RawEvent) (t i : Nat) (e : EventItemData)
    (ct : String)
    (hrel : ev.relation = some ⟨.replacement, t⟩)
    (hpay : ev.payload = .encrypted ct none)
    (hred : (getAgg s.aggs t).redacted = false)
    (hfind : lookupEvent s.events t = some (i, e)) :
    (handleLiveEvent s ev).1.events =
      s.events.set i { e with content := .unableToDecrypt } ∧
    (handleLiveEvent s ev).1.events.length = s.events.length ∧
    (handleLiveEvent s ev).2 =
      [.set (projIndex s.events i)
        (.event { e with content := .unableToDecrypt })] ∧
    filterDiffs (projection s.events) (handleLiveEvent s ev).2 =
      [.set i (.event { e with content := .unableToDecrypt })] := by
  have hi : i < s.events.length := (lookupEvent_some hfind).1
  have hcount := countEvents_take_projIndexAux s.events none i hi
  have h1 : (handleLiveEvent s ev).1.events =
        s.events.set i { e with content := .unableToDecrypt } ∧
      (handleLiveEvent s ev).2 =
        [.set (projIndex s.events i)
          (.event { e with content := .unableToDecrypt })] := by
    simp only [handleLiveEvent, hrel, hpay, hred, Bool.false_eq_true, if_false,
      hfind]
    exact ⟨trivial, trivial⟩
  refine ⟨h1.1, ?_, h1.2, ?_⟩
  · rw [h1.1]
    simp
  · rw [h1.2]
    simp only [filterDiffs, filterOp, applyOp]
    rw [projection, projIndex, hcount]

/-- The item built for the plain message event. -/
def exPlainItem : EventItemData := ⟨1, "alice", 10, .message "original" none, none⟩

/-- Witness for C4, replaying test_utd_edit_replaces_original: the UTD
replacement turns the original item into a placeholder via a single Set
(at projection index 1, reported at index 0 by the event-filtered stream). -/
theorem c4_witness :
    lookupEvent exStatePlain.events 1 = some (0, exPlainItem) ∧
    projIndex exStatePlain.events 0 = 1 ∧
    ((handleLiveEvent exStatePlain exUtdReplacement).1.events =
        exStatePlain.events.set 0 { exPlainItem with content := .unableToDecrypt } ∧
      (handleLiveEvent exStatePlain exUtdReplacement).1.events.length =
        exStatePlain.events.length ∧
      (handleLiveEvent exStatePlain exUtdReplacement).2 =
        [.set (projIndex exStatePlain.events 0)
          (.event { exPlainItem with content := .unableToDecrypt })] ∧
      filterDiffs (projection exStatePlain.events)
          (handleLiveEvent exStatePlain exUtdReplacement).2 =
        [.set 0 (.event { exPlainItem with content := .unableToDecrypt })]) :=
  ⟨by decide, by decide,
   c4_utd_edit_replaces_original exStatePlain exUtdReplacement 1 0
     exPlainItem "AwgAEpABqOCAaP6N" rfl rfl (by decide) (by decide)⟩

/-- The verified original event of test_edit_updates_encryption_info. -/
def exVerifiedInfo : EncryptionInfo := ⟨"alice", none, "123", .verified⟩

/-- The unverified-identity info carried by the edit in
test_edit_updates_encryption_info. -/
def exUnverifiedInfo : EncryptionInfo :=
  ⟨"alice", none, "123", .unverified .unverifiedIdentity⟩

/-- The original message with Verified encryption info. -/
def exVerifiedEvent : RawEvent :=
  ⟨1, "alice", 10, .message "**original** message" none, none, none,
   some exVerifiedInfo⟩

/-- The edit whose encryption info is Unverified(UnverifiedIdentity). -/
def exUnverifiedEdit : RawEvent :=
  ⟨2, "alice", 20, .message " * !!edited!! **better** message" none,
   some ⟨.edit ⟨"!!edited!! **better** message", none⟩, 1⟩, none,
   some exUnverifiedInfo⟩

/-- State after ingesting the verified original. -/
def exStateVerified : TimelineState :=
  (handleLiveEvent initialState exVerifiedEvent).1

/-- C5: an edit carrying encryption info with verification state
Unverified(UnverifiedIdentity), ingested for a present, non-redacted,
Verified target, leaves the item at the same position with the edit's
encryption info displayed — hence verification state
Unverified(UnverifiedIdentity) — and with body equal to the edited text. -/
theorem c5_edit_updates_encryption_info
    (s : TimelineState) (ev : RawEvent) (nc : NewContent) (t i : Nat)
    (e : EventItemData) (ei ei0 : EncryptionInfo)
    (hrel : ev.relation = some ⟨.edit nc, t⟩)
    (hred : (getAgg s.aggs t).redacted = false)
    (hwin : winsOver (getAgg s.aggs t).edit ev.timestamp = true)
    (hfind : lookupEvent s.events t = some (i, e))
    (henc : ev.encryptionInfo = some ei)
    (hst : ei.verificationState = .unverified .unverifiedIdentity)
    (_horig : e.encryptionInfo = some ei0)
    (_host : ei0.verificationState = .verified) :
    lookupEvent (handleLiveEvent s ev).1.events t =
      some (i, editedItem e nc ev.encryptionInfo) ∧
    (editedItem e nc ev.encryptionInfo).encryptionInfo = some ei ∧
    ei.verificationState = .unverified .unverifiedIdentity ∧
    (editedItem e nc ev.encryptionInfo).content =
      .message nc.body (nc.formatted.map sanitize) := by
  have h := handleLiveEvent_edit_wins s ev nc t i e hrel hred hwin hfind
  refine ⟨h.2.1, ?_, hst, rfl⟩
  simp [editedItem, henc]

/-- Witness for C5, replaying test_edit_updates_encryption_info. -/
theorem c5_witness :
    lookupEvent exStateVerified.events 1 =
      some (0, ⟨1, "alice", 10, .message "**original** message" none,
        some exVerifiedInfo⟩) ∧
    exVerifiedInfo.verificationState = .verified ∧
    (lookupEvent
        (handleLiveEvent exStateVerified exUnverifiedEdit).1.events 1 =
      some (0, editedItem
        ⟨1, "alice", 10, .message "**original** message" none,
          some exVerifiedInfo⟩
        ⟨"!!edited!! **better** message", none⟩
        (some exUnverifiedInfo)) ∧
      (editedItem
        ⟨1, "alice", 10, .message "**original** message" none,
          some exVerifiedInfo⟩
        ⟨"!!edited!! **better** message", none⟩
        (some exUnverifiedInfo)).encryptionInfo = some exUnverifiedInfo ∧
      exUnverifiedInfo.verificationState = .unverified .unverifiedIdentity ∧
      (editedItem
        ⟨1, "alice", 10, .message "**original** message" none,
          some exVerifiedInfo⟩
        ⟨"!!edited!! **better** message", none⟩
        (some exUnverifiedInfo)).content =
        .message "!!edited!! **better** message" none) := by
  refine ⟨by decide, by decide, ?_⟩
  exact c5_edit_updates_encryption_info exStateVerified exUnverifiedEdit
    ⟨"!!edited!! **better** message", none⟩ 1 0
    ⟨1, "alice", 10, .message "**original** message" none, some exVerifiedInfo⟩
    exUnverifiedInfo exVerifiedInfo
    rfl (by decide) (by decide) (by decide) rfl rfl rfl rfl

theorem appendItem_events (st : TimelineState) (e : EventItemData) :
    (appendItem st e).1.events = st.events ++ [e] := rfl

theorem appendItem_aggs (st : TimelineState) (e : EventItemData) :
    (appendItem st e).1.aggs = st.aggs := rfl

theorem appendItem_diff_counts (st : TimelineState) (e : EventItemData) :
    countOps isPushBack (appendItem st e).2 = 1 ∧
    countOps isSet (appendItem st e).2 = 0 := by
  rw [appendItem]
  cases hld : lastDay st.events with
  | none => simp [countOps, isPushBack, isSet]
  | some d =>
      by_cases hd : d = dayOf e.timestamp
      · simp [hld, hd, countOps, isPushBack, isSet]
      · simp [hld, hd, countOps, isPushBack, isSet]

/-- C6: day dividers bracket calendar-day boundaries in every reachable
projection: every adjacent pair satisfies the adjacency discipline — adjacent
event items share a calendar day, a divider's day differs from the preceding
event item's day and equals the following event item's day, and no two
virtual items are adjacent — so two neighbouring event items on different
days are separated by exactly one divider and same-day ones by none; every
nonempty projection opens with a divider immediately followed by an event
item; and the first event of a timeline is published as its PushBack followed
by the PushFront of its day divider. -/
theorem c6_day_divider_invariant :
    (∀ l : List EventItemData,
        adjOk (projection l) = true ∧ startsWithDivider (projection l) = true) ∧
    (∀ (s : TimelineState) (ev : RawEvent) (b : String) (f : Option String),
        s.events = [] → ev.relation = none → ev.payload = .message b f →
        ∃ it : EventItemData,
          (handleLiveEvent s ev).2 =
            [.pushBack (.event it),
             .pushFront (.dayDivider (dayOf ev.timestamp))]) := by
  constructor
  · intro l
    exact ⟨projection_adjOk l, projection_startsWithDivider l⟩
  · intro s ev b f hempty hrel hpay
    simp only [handleLiveEvent, hrel, hpay, hempty, lookupEvent, appendItem,
      lastDay]
    exact ⟨_, rfl⟩

/-- Witness for C6: the invariant on the concrete two-event state and the
PushBack-then-PushFront publication of the first event. -/
theorem c6_witness :
    (adjOk (projection exStatePlain.events) = true ∧
      startsWithDivider (projection exStatePlain.events) = true) ∧
    (∃ it : EventItemData,
        (handleLiveEvent initialState exPlainEvent).2 =
          [.pushBack (.event it), .pushFront (.dayDivider (dayOf 10))]) :=
  ⟨c6_day_divider_invariant.1 exStatePlain.events,
   c6_day_divider_invariant.2 initialState exPlainEvent "original" none
     rfl rfl rfl⟩

/-- C7: the event-only stream of subscribe_events never delivers a virtual
item — every operation surviving the filter concerns event-backed items only
— and its indices are positions in the virtual-item-free sequence: a Set
published at the projection position of event-sequence index i is delivered
as a Set at index i, and the first event of a timeline is delivered as a
plain PushBack (event index 0) with the day-divider PushFront dropped. -/
theorem c7_subscribe_events_event_only :
    (∀ (proj : List TimelineItem) (ops : List DiffOp) (op : DiffOp),
        op ∈ filterDiffs proj ops → opEventOnly op = true) ∧
    (∀ (l : List EventItemData) (i : Nat) (d : EventItemData), i < l.length →
        filterDiffs (projection l) [.set (projIndex l i) (.event d)] =
          [.set i (.event d)]) ∧
    (∀ (s : TimelineState) (ev : RawEvent) (b : String) (f : Option String),
        s.events = [] → ev.relation = none → ev.payload = .message b f →
        ∃ it : EventItemData,
          filterDiffs (projection s.events) (handleLiveEvent s ev).2 =
            [.pushBack (.event it)]) := by
  refine ⟨fun proj ops op h => filterDiffs_eventOnly ops proj op h, ?_, ?_⟩
  · intro l i d hi
    simp only [filterDiffs, filterOp, applyOp]
    rw [projection, projIndex, countEvents_take_projIndexAux l none i hi]
  · intro s ev b f hempty hrel hpay
    simp only [handleLiveEvent, hrel, hpay, hempty, lookupEvent, appendItem,
      lastDay, projection, withDividersFrom, filterDiffs, filterOp, applyOp]
    exact ⟨_, rfl⟩

/-- Witness for C7: the concrete UTD Set of test_utd_edit_replaces_original
is delivered at event index 0, and the first event of a fresh timeline is
delivered as a plain PushBack with the divider dropped. -/
theorem c7_witness :
    (0 : Nat) < exStatePlain.events.length ∧
    filterDiffs (projection exStatePlain.events)
        [.set (projIndex exStatePlain.events 0)
          (.event ⟨1, "alice", 10, .unableToDecrypt, none⟩)] =
      [.set 0 (.event ⟨1, "alice", 10, .unableToDecrypt, none⟩)] ∧
    (∃ it : EventItemData,
        filterDiffs (projection initialState.events)
          (handleLiveEvent initialState exPlainEvent).2 =
        [.pushBack (.event it)]) :=
  ⟨by decide,
   c7_subscribe_events_event_only.2.1 exStatePlain.events 0
     ⟨1, "alice", 10, .unableToDecrypt, none⟩ (by decide),
   c7_subscribe_events_event_only.2.2 initialState exPlainEvent "original" none
     rfl rfl rfl⟩

/-- C3: an event delivered already carrying a server-bundled edit renders the
same final body and formatted body as the same unedited event followed by a
separate out-of-band edit event, and the bundled case is applied in the same
ingestion pass: it publishes exactly one PushBack and no Set, while the
out-of-band pass publishes its own Set. -/
theorem c3_bundled_edit_matches_out_of_band
    (s : TimelineState) (oid eid2 : Nat) (snd snd2 : String) (t1 t2 : Nat)
    (b : String) (f : Option String) (nc : NewContent) (p2 : Payload)
    (enc1 enc2 : Option EncryptionInfo)
    (hagg : getAgg s.aggs oid = emptyAgg)
    (hfind : lookupEvent s.events oid = none) :
    (∃ itB : EventItemData,
        lookupEvent
          (handleLiveEvent s
            ⟨oid, snd, t1, .message b f, none, some nc, enc1⟩).1.events oid =
          some (s.events.length, itB) ∧
        itB.content = .message nc.body (nc.formatted.map sanitize)) ∧
    (∃ itT : EventItemData,
        lookupEvent
          ((handleLiveEvent
              (handleLiveEvent s
                ⟨oid, snd, t1, .message b f, none, none, enc1⟩).1
              ⟨eid2, snd2, t2, p2, some ⟨.edit nc, oid⟩, none, enc2⟩).1).events
          oid =
          some (s.events.length, itT) ∧
        itT.content = .message nc.body (nc.formatted.map sanitize)) ∧
    countOps isPushBack
      (handleLiveEvent s
        ⟨oid, snd, t1, .message b f, none, some nc, enc1⟩).2 = 1 ∧
    countOps isSet
      (handleLiveEvent s
        ⟨oid, snd, t1, .message b f, none, some nc, enc1⟩).2 = 0 ∧
    countOps isSet
      (handleLiveEvent
        (handleLiveEvent s ⟨oid, snd, t1, .message b f, none, none, enc1⟩).1
        ⟨eid2, snd2, t2, p2, some ⟨.edit nc, oid⟩, none, enc2⟩).2 = 1 := by
  have hBev : handleLiveEvent s ⟨oid, snd, t1, .message b f, none, some nc, enc1⟩ =
      appendItem
        { s with
          aggs := setAgg s.aggs oid (foldEditInto emptyAgg nc t1 enc1),
          arrival := s.arrival + 1 }
        ⟨oid, snd, t1,
          buildContent (foldEditInto emptyAgg nc t1 enc1) b f,
          buildEncInfo (foldEditInto emptyAgg nc t1 enc1) enc1⟩ := by
    simp only [handleLiveEvent, hfind, hagg]
  have hT1 : handleLiveEvent s ⟨oid, snd, t1, .message b f, none, none, enc1⟩ =
      appendItem
        { s with
          aggs := setAgg s.aggs oid emptyAgg,
          arrival := s.arrival + 1 }
        ⟨oid, snd, t1, buildContent emptyAgg b f, buildEncInfo emptyAgg enc1⟩ := by
    simp only [handleLiveEvent, hfind, hagg]
  have hs2events :
      (handleLiveEvent s ⟨oid, snd, t1, .message b f, none, none, enc1⟩).1.events =
      s.events ++
        [⟨oid, snd, t1, buildContent emptyAgg b f, buildEncInfo emptyAgg enc1⟩] := by
    rw [hT1, appendItem_events]
  have hs2aggs :
      (handleLiveEvent s ⟨oid, snd, t1, .message b f, none, none, enc1⟩).1.aggs =
      setAgg s.aggs oid emptyAgg := by
    rw [hT1, appendItem_aggs]
  have hred2 : (getAgg (handleLiveEvent s
      ⟨oid, snd, t1, .message b f, none, none, enc1⟩).1.aggs oid).redacted = false := by
    rw [hs2aggs, getAgg_setAgg]
    rfl
  have hwin2 : winsOver (getAgg (handleLiveEvent s
      ⟨oid, snd, t1, .message b f, none, none, enc1⟩).1.aggs oid).edit t2 = true := by
    rw [hs2aggs, getAgg_setAgg]
    rfl
  have hfind2 : lookupEvent (handleLiveEvent s
      ⟨oid, snd, t1, .message b f, none, none, enc1⟩).1.events oid =
      some (s.events.length,
        ⟨oid, snd, t1, buildContent emptyAgg b f, buildEncInfo emptyAgg enc1⟩) := by
    rw [hs2events]
    exact lookupEvent_append hfind rfl
  have hedit := handleLiveEvent_edit_wins
    (handleLiveEvent s ⟨oid, snd, t1, .message b f, none, none, enc1⟩).1
    ⟨eid2, snd2, t2, p2, some ⟨.edit nc, oid⟩, none, enc2⟩
    nc oid s.events.length
    ⟨oid, snd, t1, buildContent emptyAgg b f, buildEncInfo emptyAgg enc1⟩
    rfl hred2 hwin2 hfind2
  refine ⟨?_, ?_, ?_, ?_, ?_⟩
  · refine ⟨⟨oid, snd, t1,
      buildContent (foldEditInto emptyAgg nc t1 enc1) b f,
      buildEncInfo (foldEditInto emptyAgg nc t1 enc1) enc1⟩, ?_, rfl⟩
    rw [hBev, appendItem_events]
    exact lookupEvent_append hfind rfl
  · exact ⟨editedItem
      ⟨oid, snd, t1, buildContent emptyAgg b f, buildEncInfo emptyAgg enc1⟩
      nc enc2, hedit.2.1, rfl⟩
  · rw [hBev]
    exact (appendItem_diff_counts _ _).1
  · rw [hBev]
    exact (appendItem_diff_counts _ _).2
  · rw [hedit.2.2]
    rfl

/-- Witness for C3, replaying test_aggregated_sanitized against
test_live_sanitized. -/
theorem c3_witness :
    getAgg initialState.aggs 1 = emptyAgg ∧
    lookupEvent initialState.events 1 = none ∧
    ((∃ itB : EventItemData,
        lookupEvent
          (handleLiveEvent initialState
            ⟨1, "alice", 10,
             .message "**original** message"
               (some "<strong>original</strong> message"),
             none,
             some ⟨"!!edited!! **better** message",
               some "<edited/> <strong>better</strong> message"⟩,
             none⟩).1.events 1 =
          some (0, itB) ∧
        itB.content =
          .message "!!edited!! **better** message"
            ((some "<edited/> <strong>better</strong> message").map sanitize)) ∧
      (∃ itT : EventItemData,
        lookupEvent
          ((handleLiveEvent
              (handleLiveEvent initialState
                ⟨1, "alice", 10,
                 .message "**original** message"
                   (some "<strong>original</strong> message"),
                 none, none, none⟩).1
              ⟨2, "alice", 20, .message "* x" none,
               some ⟨.edit ⟨"!!edited!! **better** message",
                 some "<edited/> <strong>better</strong> message"⟩, 1⟩,
               none, none⟩).1).events 1 =
          some (0, itT) ∧
        itT.content =
          .message "!!edited!! **better** message"
            ((some "<edited/> <strong>better</strong> message").map sanitize)) ∧
      countOps isPushBack
        (handleLiveEvent initialState
          ⟨1, "alice", 10,
           .message "**original** message"
             (some "<strong>original</strong> message"),
           none,
           some ⟨"!!edited!! **better** message",
             some "<edited/> <strong>better</strong> message"⟩,
           none⟩).2 = 1 ∧
      countOps isSet
        (handleLiveEvent initialState
          ⟨1, "alice", 10,
           .message "**original** message"
             (some "<strong>original</strong> message"),
           none,
           some ⟨"!!edited!! **better** message",
             some "<edited/> <strong>better</strong> message"⟩,
           none⟩).2 = 0 ∧
      countOps isSet
        (handleLiveEvent
          (handleLiveEvent initialState
            ⟨1, "alice", 10,
             .message "**original** message"
               (some "<strong>original</strong> message"),
             none, none, none⟩).1
          ⟨2, "alice", 20, .message "* x" none,
           some ⟨.edit ⟨"!!edited!! **better** message",
             some "<edited/> <strong>better</strong> message"⟩, 1⟩,
           none, none⟩).2 = 1) :=
  ⟨rfl, rfl,
   c3_bundled_edit_matches_out_of_band initialState 1 2 "alice" "alice" 10 20
     "**original** message" (some "<strong>original</strong> message")
     ⟨"!!edited!! **better** message",
       some "<edited/> <strong>better</strong> message"⟩
     (.message "* x" none) none none rfl rfl⟩

/-! Widget message loop (crates/matrix-sdk/src/widget/client/mod.rs). -/

/-- JSON value, modelling serde_json::Value as used by the widget loop. -/
inductive JsonValue where
  | null
  | bool (b : Bool)
  | num (n : Int)
  | str (s : String)
  | arr (xs : List JsonValue)
  | obj (fields : List (String × JsonValue))

/-- First field with the given key, Null when absent. -/
def lookupField : List (String × JsonValue) → String → JsonValue
  | [], _ => .null
  | (k, v) :: rest, key => if k = key then v else lookupField rest key

/-- serde_json indexing v[key]: the field of an object, Null for missing
fields and for non-object values. -/
def indexField : JsonValue → String → JsonValue
  | .obj fields, key => lookupField fields key
  | _, _ => .null

/-- A parsed widget Message action: an incoming request from the widget, or a
response to one of our outgoing requests (messages::Action). -/
inductive ParsedAction where
  | fromWidget (action : String)
  | toWidget (action : String)

/-- Outcome of parsing one raw inbound string, as matched by the loop in
widget/client/mod.rs: a valid Message, valid JSON that is not a valid Message
(with the serde error text), or not JSON at all.  The parsers themselves are
external (serde); the code in src/ matches on these outcomes. -/
inductive Inbound where
  | valid (msg : ParsedAction)
  | invalidJson (v : JsonValue) (errText : String)
  | notJson

/-- Observable effects of the widget loop. -/
inductive WidgetEffect where
  | handleRequest (action : String)
  | handleResponse (action : String)
  | sendError (original : Option JsonValue) (errText : String)
  | warnParsingResponse

/-- One iteration of the receive loop of run in widget/client/mod.rs: a valid
message is dispatched to the handler or to the response path; an
invalid-format message is answered through send_error — with the original
JSON attached when its response field is null or absent, with a widget_id
object (after a warning) when the response field is a number, a string or an
object, and with no reply at all when the response field is a boolean or an
array (the wildcard match arm); a non-JSON message is answered with the fixed
malformatted text. -/
def widgetStep (widgetId : String) : Inbound → List WidgetEffect
  | .valid (.fromWidget a) => [.handleRequest a]
  | .valid (.toWidget a) => [.handleResponse a]
  | .invalidJson v e =>
      match indexField v "response" with
      | .null => [.sendError (some v) e]
      | .num _ =>
          [.warnParsingResponse,
           .sendError (some (.obj [("widget_id", .str widgetId)])) e]
      | .str _ =>
          [.warnParsingResponse,
           .sendError (some (.obj [("widget_id", .str widgetId)])) e]
      | .obj _ =>
          [.warnParsingResponse,
           .sendError (some (.obj [("widget_id", .str widgetId)])) e]
      | .bool _ => []
      | .arr _ => []
  | .notJson =>
      [.sendError none
        "The request json could not be parsed as json. Its malformatted."]

/-- The receive loop of run: processes inbound messages until the channel
closes (the end of the list). -/
def widgetRun (widgetId : String) : List Inbound → List WidgetEffect
  | [] => []
  | m :: rest => widgetStep widgetId m ++ widgetRun widgetId rest

/-- Whether an effect is a send_error call. -/
def isSendErrorEffect : WidgetEffect → Bool
  | .sendError _ _ => true
  | _ => false

/-- C8 counterexample: a message that is valid JSON but not a valid Message
and whose response field is the boolean true falls into the wildcard arm of
the loop: no send_error (indeed no effect at all) is produced, refuting the
claim that every unparseable inbound message is answered with a structured
error response. -/
theorem c8_counterexample :
    widgetRun "w"
      [.invalidJson (.obj [("response", .bool true)]) "invalid type"] = [] ∧
    ((widgetRun "w"
        [.invalidJson (.obj [("response", .bool true)]) "invalid type"]).filter
      isSendErrorEffect).length = 0 :=
  ⟨rfl, rfl⟩

/-- C8 (amended): the widget loop never terminates on a malformed message —
each received message contributes its effects and the loop continues with the
remaining messages, exiting only at channel close — and it answers failed
parses through send_error as follows: the original message is attached when
the message is valid JSON whose response field is null or absent; a widget_id
reference is sent instead (after a warning) when the response field is a
number, a string or an object; a non-JSON message gets the fixed error text
with no original attached; and a JSON message whose response field is a
boolean or an array is dropped without any reply. -/
theorem c8_malformed_message_handling
    (wid : String) (x : Inbound) (rest : List Inbound)
    (v : JsonValue) (e : String) :
    widgetRun wid (x :: rest) = widgetStep wid x ++ widgetRun wid rest ∧
    (indexField v "response" = .null →
      widgetStep wid (.invalidJson v e) = [.sendError (some v) e]) ∧
    ((∃ n, indexField v "response" = .num n) ∨
     (∃ s, indexField v "response" = .str s) ∨
     (∃ fs, indexField v "response" = .obj fs) →
      widgetStep wid (.invalidJson v e) =
        [.warnParsingResponse,
         .sendError (some (.obj [("widget_id", .str wid)])) e]) ∧
    widgetStep wid .notJson =
      [.sendError none
        "The request json could not be parsed as json. Its malformatted."] ∧
    ((∃ b, indexField v "response" = .bool b) ∨
     (∃ xs, indexField v "response" = .arr xs) →
      widgetStep wid (.invalidJson v e) = []) := by
  refine ⟨rfl, ?_, ?_, rfl, ?_⟩
  · intro h
    simp [widgetStep, h]
  · intro h
    rcases h with ⟨n, h⟩ | ⟨s1, h⟩ | ⟨fs, h⟩ <;> simp [widgetStep, h]
  · intro h
    rcases h with ⟨b1, h⟩ | ⟨xs, h⟩ <;> simp [widgetStep, h]

/-- Witness for C8 (amended), exercising every arm at concrete messages. -/
theorem c8_amended_witness :
    widgetRun "w" (Inbound.notJson :: [.valid (.fromWidget "op")]) =
      widgetStep "w" .notJson ++ widgetRun "w" [.valid (.fromWidget "op")] ∧
    widgetStep "w" (.invalidJson (.obj [("response", .null)]) "err") =
      [.sendError (some (.obj [("response", .null)])) "err"] ∧
    widgetStep "w" (.invalidJson (.obj [("response", .num 3)]) "err") =
      [.warnParsingResponse,
       .sendError (some (.obj [("widget_id", .str "w")])) "err"] ∧
    widgetStep "w" (.invalidJson (.obj [("response", .arr [])]) "err") = [] :=
  ⟨(c8_malformed_message_handling "w" .notJson [.valid (.fromWidget "op")]
      .null "err").1,
   (c8_malformed_message_handling "w" .notJson [] (.obj [("response", .null)])
      "err").2.1 rfl,
   (c8_malformed_message_handling "w" .notJson [] (.obj [("response", .num 3)])
      "err").2.2.1 (Or.inl ⟨3, rfl⟩),
   (c8_malformed_message_handling "w" .notJson [] (.obj [("response", .arr [])])
      "err").2.2.2.2 (Or.inr ⟨[], rfl⟩)⟩

/-! run_widget_api (crates/matrix-sdk/src/widget/mod.rs). -/

/-- Settings of a widget (widget_settings.rs): id, init-on-content-load flag
and raw url. -/
structure WidgetSettings where
  widgetId : String
  initAfterContentLoad : Bool
  rawUrl : String
deriving DecidableEq, Repr

/-- Communication channels with a widget (widget/mod.rs Comm), modelled as
the queued raw messages of each direction. -/
structure Comm where
  fromWidget : List String
  toWidget : List String
deriving DecidableEq, Repr

/-- A widget: settings plus communication channels (widget/mod.rs Widget). -/
structure Widget where
  settings : WidgetSettings
  comm : Comm
deriving DecidableEq, Repr

/-- A joined room, by id, as far as run_widget_api is concerned. -/
structure Room where
  roomId : String
deriving DecidableEq, Repr

/-- run_widget_api from widget/mod.rs: its whole body is Err(()) — it ignores
the room, the widget and the permissions provider.  The room and widget are
returned alongside the result so that non-mutation is observable. -/
def run_widget_api {α : Type} (room : Room) (widget : Widget) (_pp : α) :
    Except Unit Unit × Room × Widget :=
  (Except.error (), room, widget)

/-- C9: for every room, widget and permissions provider, run_widget_api
returns Err(()) — despite its doc comment announcing a panic, it is a total
function and cannot panic — and it leaves the room and the widget's
communication channels untouched. -/
theorem c9_run_widget_api_errs {α : Type} (room : Room) (widget : Widget)
    (pp : α) :
    run_widget_api room widget pp = (Except.error (), room, widget) := rfl

/-! Ask-to-join requests (crates/matrix-sdk/src/room/ask_to_join_request.rs). -/

/-- A room member as used by the ask-to-join module: its user id and the
optional event id of its knock membership event. -/
structure MemberModel where
  userId : String
  membershipEventId : Option Nat
deriving DecidableEq, Repr

/-- The effectful Room surface consumed by ask_to_join_request.rs: the
outcome of mark_requests_to_join_as_seen, and the stored seen event ids
returned by get_seen_requests_to_join. -/
structure RoomOps where
  markSeenOutcome : List Nat → Except String Unit
  seenIds : List Nat

/-- AskToJoinRequest::mark_as_seen: when the member event carries no event id
it returns Ok(false) without calling the room; otherwise it calls
mark_requests_to_join_as_seen with the singleton event id list and returns
Ok(true) on success, propagating the error otherwise.  The second component
records the calls made to the room. -/
def mark_as_seen (room : RoomOps) (member : MemberModel) :
    Except String Bool × List (List Nat) :=
  match member.membershipEventId with
  | none => (.ok false, [])
  | some id =>
      match room.markSeenOutcome [id] with
      | .ok _ => (.ok true, [[id]])
      | .error err => (.error err, [[id]])

/-- One produced ask-to-join request: the member and the is_unread flag. -/
structure AskToJoinRequestModel where
  member : MemberModel
  isUnread : Bool
deriving DecidableEq, Repr

/-- get_requests_to_join from ask_to_join_request.rs: one request per knock
member, unread unless the member's event id is present and contained in the
seen ids. -/
def get_requests_to_join (knockMembers : List MemberModel)
    (seenIds : List Nat) : List AskToJoinRequestModel :=
  knockMembers.map (fun m =>
    ⟨m,
     !(match m.membershipEventId with
       | some id => seenIds.contains id
       | none => false)⟩)

/-- C10: mark_as_seen returns Ok(false) and performs no marking call when the
member event has no event id; it returns Ok(true) after exactly the singleton
marking call when an event id is present and the underlying call succeeds;
and a request produced by get_requests_to_join is unread exactly when its
member event id is absent or not contained in the seen ids. -/
theorem c10_ask_to_join_requests
    (room : RoomOps) (m0 m1 : MemberModel) (id : Nat)
    (members : List MemberModel) (seen : List Nat)
    (h0 : m0.membershipEventId = none)
    (h1 : m1.membershipEventId = some id)
    (hok : room.markSeenOutcome [id] = .ok ()) :
    mark_as_seen room m0 = (.ok false, []) ∧
    mark_as_seen room m1 = (.ok true, [[id]]) ∧
    (∀ r, r ∈ get_requests_to_join members seen →
      (r.isUnread = true ↔
        (r.member.membershipEventId = none ∨
         ∃ i, r.member.membershipEventId = some i ∧
           seen.contains i = false))) := by
  refine ⟨?_, ?_, ?_⟩
  · simp [mark_as_seen, h0]
  · simp [mark_as_seen, h1, hok]
  · intro r hr
    simp only [get_requests_to_join, List.mem_map] at hr
    obtain ⟨m, -, rfl⟩ := hr
    cases hmid : m.membershipEventId with
    | none => simp [hmid]
    | some i =>
        by_cases hc : seen.contains i
        · simp [hmid, hc]
        · simp [hmid, hc]

/-- Witness for C10 on a concrete room surface and member list. -/
theorem c10_witness :
    mark_as_seen ⟨fun _ => .ok (), [5]⟩ ⟨"alice", none⟩ = (.ok false, []) ∧
    mark_as_seen ⟨fun _ => .ok (), [5]⟩ ⟨"bob", some 7⟩ = (.ok true, [[7]]) ∧
    (∀ r, r ∈ get_requests_to_join
        [⟨"alice", none⟩, ⟨"bob", some 7⟩, ⟨"eve", some 5⟩] [5] →
      (r.isUnread = true ↔
        (r.member.membershipEventId = none ∨
         ∃ i, r.member.membershipEventId = some i ∧
           ([5] : List Nat).contains i = false))) :=
  c10_ask_to_join_requests ⟨fun _ => .ok (), [5]⟩ ⟨"alice", none⟩
    ⟨"bob", some 7⟩ 7 [⟨"alice", none⟩, ⟨"bob", some 7⟩, ⟨"eve", some 5⟩]
    [5] rfl rfl rfl

end MatrixSpec
